import Mathlib

/-!
The toolrentalclub backend: identity provisioning over the in-memory user directory

A shallow embedding of

* `domain/user/entity.go` (`User`, `NewUser`),
* `domain/auth/token.go` (`Token`),
* `infrastructure/repository/memory/user_repository.go`
  (`UserRepository` with `FindByID`, `FindByEmail`, `Create`, `Update`),
* `application/auth/service.go` (`UseCase.VerifyTokenAndGetUser`,
  `UseCase.VerifyToken`).

Modelling conventions.

* A Go `map[string]V` is a finite association list `GoMap V`; `mapGet` is the
  two-valued lookup `v, ok := m[k]`, `mapSet` is `m[k] = v`, `mapDelete` is
  `delete(m, k)` and `mapLen` is `len(m)` (the number of distinct keys).
* A Go `error` is its message; a function returning `error` returns
  `Option Error` (`none` is `nil`), a function returning `(*T, error)` returns
  `Except Error (Option T)` where `.ok none` is the pair `(nil, nil)`.
* Every repository method holds the mutex for its whole body, so a method is
  one atomic step on the pair of maps; the state is passed explicitly.
* `time.Now()` is an input `now` of the operation that reads the clock.
* `auth.Service` is an interface: the verifier is a parameter
  `authService : String → Except Error Token`.
-/

namespace ToolRentalClub

/-! ## Go maps -/

/-- A Go `map[string]V` as an association list. -/
abbrev GoMap (V : Type) := List (String × V)

/-- The lookup `v, ok := m[key]`: `none` when `ok` is false. -/
def mapGet {V : Type} : GoMap V → String → Option V
  | [], _ => none
  | (k, v) :: m, key => if k = key then some v else mapGet m key

/-- The statement `delete(m, key)`. -/
def mapDelete {V : Type} : GoMap V → String → GoMap V
  | [], _ => []
  | (k, v) :: m, key => if k = key then mapDelete m key else (k, v) :: mapDelete m key

/-- The assignment `m[key] = v`. -/
def mapSet {V : Type} (m : GoMap V) (key : String) (v : V) : GoMap V :=
  (key, v) :: mapDelete m key

/-- The builtin `len(m)`: the number of distinct keys. -/
def mapLen {V : Type} : GoMap V → Nat
  | [] => 0
  | (k, _) :: m => if (mapGet m k).isSome then mapLen m else mapLen m + 1

/-! ## Domain types -/

/-- A reading of the wall clock (`time.Time`). -/
abbrev Time := Nat

/-- A Go `error`, identified with its message. -/
abbrev Error := String

deriving instance DecidableEq for Except

/-- The struct `user.User` of `domain/user/entity.go`. -/
structure User where
  ID : String
  Email : String
  CreatedAt : Time
  UpdatedAt : Time
deriving DecidableEq, Repr

/-- The constructor `user.NewUser(id, email)`; `now` is the value of `time.Now()`. -/
def NewUser (now : Time) (id email : String) : User :=
  { ID := id, Email := email, CreatedAt := now, UpdatedAt := now }

/-- The struct `auth.Token` of `domain/auth/token.go`. -/
structure Token where
  Value : String
  UserID : String
  Email : String
deriving DecidableEq, Repr

/-! ## The in-memory repository -/

/-- The struct `memory.UserRepository`: `users` is keyed by user ID, `index` maps an
email to a user ID. -/
structure UserRepository where
  users : GoMap User
  index : GoMap String
deriving DecidableEq, Repr

/-- The constructor `memory.NewUserRepository()`. -/
def NewUserRepository : UserRepository :=
  { users := [], index := [] }

/-- The method `(*UserRepository).FindByID`. -/
def UserRepository.FindByID (r : UserRepository) (id : String) : Except Error (Option User) :=
  match mapGet r.users id with
  | none => .error "user not found"
  | some user => .ok (some user)

/-- The method `(*UserRepository).FindByEmail`: the result is `r.users[userID]`, which is
`nil` with a `nil` error when the indexed ID is not a key of `users`. -/
def UserRepository.FindByEmail (r : UserRepository) (email : String) :
    Except Error (Option User) :=
  match mapGet r.index email with
  | none => .error "user not found"
  | some userID => .ok (mapGet r.users userID)

/-- The method `(*UserRepository).Create`: the returned error and the state after the call. -/
def UserRepository.Create (r : UserRepository) (user : User) : Option Error × UserRepository :=
  if (mapGet r.users user.ID).isSome then
    (some "user already exists", r)
  else if (mapGet r.index user.Email).isSome then
    (some "email already taken", r)
  else
    (none, { users := mapSet r.users user.ID user, index := mapSet r.index user.Email user.ID })

/-- The method `(*UserRepository).Update`: the returned error and the state after the call. -/
def UserRepository.Update (r : UserRepository) (user : User) : Option Error × UserRepository :=
  match mapGet r.users user.ID with
  | none => (some "user not found", r)
  | some existingUser =>
    let index :=
      if existingUser.Email ≠ user.Email then
        mapSet (mapDelete r.index existingUser.Email) user.Email user.ID
      else
        r.index
    (none, { users := mapSet r.users user.ID user, index := index })

/-! ## The authentication use case -/

/-- A call made on the `user.Repository` interface. -/
inductive RepoCall where
  | FindByID (id : String)
  | FindByEmail (email : String)
  | Create (user : User)
  | Update (user : User)
deriving DecidableEq, Repr

/-- What a use-case method leaves behind: its return value (`.error err` is the Go result
with every pointer `nil` and error `err`), the repository afterwards, and the repository
calls it made, in order. -/
structure Outcome (α : Type) where
  result : Except Error α
  repo : UserRepository
  calls : List RepoCall

/-- The method `(*UseCase).VerifyTokenAndGetUser` with the in-memory repository as
`userRepo`. -/
def VerifyTokenAndGetUser (authService : String → Except Error Token) (now : Time)
    (r : UserRepository) (tokenValue : String) : Outcome (Token × Option User) :=
  match authService tokenValue with
  | .error err => { result := .error err, repo := r, calls := [] }
  | .ok token =>
    match r.FindByID token.UserID with
    | .ok (some existingUser) =>
      { result := .ok (token, some existingUser), repo := r,
        calls := [.FindByID token.UserID] }
    | _ =>
      let newUser := NewUser now token.UserID token.Email
      match r.Create newUser with
      | (some err, r1) =>
        match r1.FindByID token.UserID with
        | .error _ =>
          { result := .error err, repo := r1,
            calls := [.FindByID token.UserID, .Create newUser, .FindByID token.UserID] }
        | .ok existingUser =>
          { result := .ok (token, existingUser), repo := r1,
            calls := [.FindByID token.UserID, .Create newUser, .FindByID token.UserID] }
      | (none, r1) =>
        { result := .ok (token, some newUser), repo := r1,
          calls := [.FindByID token.UserID, .Create newUser] }

/-- The method `(*UseCase).VerifyToken`. -/
def VerifyToken (authService : String → Except Error Token)
    (r : UserRepository) (tokenValue : String) : Outcome Token :=
  { result := authService tokenValue, repo := r, calls := [] }

/-! ## Sequences of calls -/

/-- A mutating call on the repository. -/
inductive Op where
  | Create (user : User)
  | Update (user : User)
deriving DecidableEq, Repr

/-- The state after one mutating call; the returned error is dropped. -/
def applyOp (r : UserRepository) : Op → UserRepository
  | .Create user => (r.Create user).2
  | .Update user => (r.Update user).2

/-- The state reached from `NewUserRepository()` by the calls `ops`, in order. -/
def run (ops : List Op) : UserRepository :=
  ops.foldl applyOp NewUserRepository

/-- One invocation of `VerifyTokenAndGetUser`: the verifier in force, the clock reading and
the raw token. -/
structure ResolveCall where
  authService : String → Except Error Token
  now : Time
  tokenValue : String

/-- The repository after the invocations `cs` of `VerifyTokenAndGetUser`, one after the
other, starting from `r`. -/
def runResolves (r : UserRepository) : List ResolveCall → UserRepository
  | [] => r
  | c :: cs => runResolves (VerifyTokenAndGetUser c.authService c.now r c.tokenValue).repo cs

/-! ## The dual-index invariant -/

/-- Every entry `email -> id` of the index points at a stored user carrying that email. -/
def IndexSound (r : UserRepository) : Prop :=
  ∀ email id, mapGet r.index email = some id →
    ∃ u, mapGet r.users id = some u ∧ u.Email = email

/-- Every stored user has exactly one entry of the index pointing at it. -/
def EveryUserIndexed (r : UserRepository) : Prop :=
  ∀ id u, mapGet r.users id = some u → ∃! email, mapGet r.index email = some id

/-- The dual-index invariant: the index is sound, every stored user has exactly one index
entry, and the two maps have the same number of entries. -/
def DualIndex (r : UserRepository) : Prop :=
  IndexSound r ∧ EveryUserIndexed r ∧ mapLen r.index = mapLen r.users

/-! ## Concurrent invocations

Each repository method runs under the mutex, so it is one atomic step; the sequence
verify, `FindByID`, `Create`, second `FindByID` of `VerifyTokenAndGetUser` is not, and other
invocations may take steps in between. -/

/-- The point an invocation of `VerifyTokenAndGetUser` has reached: about to call the
verifier, about to call the first `FindByID`, about to build the new user and call
`Create`, about to call the second `FindByID` after `Create` returned `err`, or returned. -/
inductive Pc where
  | verify
  | find (token : Token)
  | create (token : Token)
  | refind (token : Token) (err : Error)
  | done (result : Except Error (Token × Option User))
deriving DecidableEq

/-- Whether the invocation has returned. -/
def Pc.isDone : Pc → Bool
  | .done _ => true
  | _ => false

/-- The number of steps an invocation at this point can still take, at most. -/
def Pc.rank : Pc → Nat
  | .verify => 4
  | .find _ => 3
  | .create _ => 2
  | .refind _ _ => 1
  | .done _ => 0

/-- An invocation in flight: its inputs and the point it has reached. -/
structure Thread where
  call : ResolveCall
  pc : Pc

/-- The next atomic step of one invocation of `VerifyTokenAndGetUser` on the shared
repository `r`: the invocation afterwards, the repository afterwards, and the users for
which a `Create` returned a nil error in this step. -/
def stepThread (t : Thread) (r : UserRepository) : Thread × UserRepository × List User :=
  match t.pc with
  | .verify =>
    match t.call.authService t.call.tokenValue with
    | .error err => ({ t with pc := .done (.error err) }, r, [])
    | .ok token => ({ t with pc := .find token }, r, [])
  | .find token =>
    match r.FindByID token.UserID with
    | .ok (some existingUser) => ({ t with pc := .done (.ok (token, some existingUser)) }, r, [])
    | _ => ({ t with pc := .create token }, r, [])
  | .create token =>
    let newUser := NewUser t.call.now token.UserID token.Email
    match r.Create newUser with
    | (some err, r1) => ({ t with pc := .refind token err }, r1, [])
    | (none, r1) => ({ t with pc := .done (.ok (token, some newUser)) }, r1, [newUser])
  | .refind token err =>
    match r.FindByID token.UserID with
    | .error _ => ({ t with pc := .done (.error err) }, r, [])
    | .ok existingUser => ({ t with pc := .done (.ok (token, existingUser)) }, r, [])
  | .done result => ({ t with pc := .done result }, r, [])

/-- The shared repository, the invocations in flight, and the users created so far by a
`Create` that returned a nil error, in order. -/
structure System where
  repo : UserRepository
  threads : List Thread
  created : List User

/-- The invocations `calls`, none of them started, over the repository `r`. -/
def System.init (r : UserRepository) (calls : List ResolveCall) : System :=
  { repo := r, threads := calls.map fun c => { call := c, pc := .verify }, created := [] }

/-- The invocation number `i` takes its next atomic step; nothing happens when there is no
such invocation or when it has returned. -/
def System.step (s : System) (i : Nat) : System :=
  match s.threads[i]? with
  | none => s
  | some t =>
    { repo := (stepThread t s.repo).2.1,
      threads := s.threads.set i (stepThread t s.repo).1,
      created := s.created ++ (stepThread t s.repo).2.2 }

/-- The interleaving `sched`: the invocations take their steps in the order listed. -/
def System.run (s : System) (sched : List Nat) : System :=
  sched.foldl System.step s

/-- Whether every invocation has returned. -/
def System.allDone (s : System) : Bool :=
  s.threads.all fun t => t.pc.isDone

/-- The points reached by the invocations, in order. -/
def System.pcs (s : System) : List Pc :=
  s.threads.map fun t => t.pc

/-- The `rank` of invocation number `i`, and 0 when there is no such invocation. -/
def System.rankAt (s : System) (i : Nat) : Nat :=
  match s.threads[i]? with
  | none => 0
  | some t => t.pc.rank

/-- The invocation `t` carries a token that verifies to `token`, with subject `sid` and email
`email`. -/
def Thread.VerifiesTo (sid email : String) (t : Thread) (token : Token) : Prop :=
  t.call.authService t.call.tokenValue = .ok token ∧ token.UserID = sid ∧ token.Email = email

/-- An invocation while no `Create` has succeeded yet: it has not gone past `Create`. -/
def Thread.Early (sid email : String) (t : Thread) : Prop :=
  ∃ token, t.VerifiesTo sid email token ∧
    (t.pc = .verify ∨ t.pc = .find token ∨ t.pc = .create token)

/-- An invocation once the `Create` of `u` has succeeded: it is anywhere before its return,
or it has returned `u`. -/
def Thread.Late (sid email : String) (u : User) (t : Thread) : Prop :=
  ∃ token, t.VerifiesTo sid email token ∧
    (t.pc = .verify ∨ t.pc = .find token ∨ t.pc = .create token ∨
      (∃ err, t.pc = .refind token err) ∨ t.pc = .done (.ok (token, some u)))

/-- The invariant of a race for the subject `sid` with email `email` started on `r0`:
either no `Create` has succeeded and the repository is still `r0`, or exactly one has, for
a user `u` with that ID and email, and the repository is `r0` with `u` added. -/
def RaceInv (r0 : UserRepository) (sid email : String) (s : System) : Prop :=
  (s.created = [] ∧ s.repo = r0 ∧ ∀ t ∈ s.threads, t.Early sid email) ∨
  (∃ u : User, u.ID = sid ∧ u.Email = email ∧ s.created = [u] ∧
    s.repo = { users := mapSet r0.users sid u, index := mapSet r0.index email sid } ∧
    ∀ t ∈ s.threads, t.Late sid email u)

/-! ## Sample data -/

/-- A user "u1" with email "a@x.com". -/
def sampleA : User := { ID := "u1", Email := "a@x.com", CreatedAt := 1, UpdatedAt := 1 }

/-- A user "u2" with email "b@x.com". -/
def sampleB : User := { ID := "u2", Email := "b@x.com", CreatedAt := 2, UpdatedAt := 2 }

/-- The directory after `Create(sampleA)` on a fresh repository. -/
def repoA : UserRepository :=
  { users := [("u1", sampleA)], index := [("a@x.com", "u1")] }

/-- The directory after `Create(sampleA)` then `Create(sampleB)` on a fresh repository. -/
def repoAB : UserRepository :=
  { users := [("u2", sampleB), ("u1", sampleA)],
    index := [("b@x.com", "u2"), ("a@x.com", "u1")] }

/-- The record with the ID of `sampleA` and the email of `sampleB`. -/
def sampleA2 : User := { sampleA with Email := "b@x.com", UpdatedAt := 3 }

/-- A verifier accepting every token as subject "u2" with email "a@x.com". -/
def verifierU2 : String → Except Error Token :=
  fun tokenValue => .ok { Value := tokenValue, UserID := "u2", Email := "a@x.com" }

/-- A verifier accepting every token as subject "u1" with email "a@x.com". -/
def verifierU1 : String → Except Error Token :=
  fun tokenValue => .ok { Value := tokenValue, UserID := "u1", Email := "a@x.com" }

/-- A verifier rejecting every token. -/
def verifierReject : String → Except Error Token :=
  fun _ => .error "invalid or expired token"

/-- A verifier accepting every token as subject "u3" with email "b@x.com". -/
def verifierU3 : String → Except Error Token :=
  fun tokenValue => .ok { Value := tokenValue, UserID := "u3", Email := "b@x.com" }

/-- The calls `Create(sampleA)`, `Create(sampleB)`, `Update` of "u1" to the email "b@x.com"
and `Update` of "u1" back to "a@x.com", all of which return a nil error. -/
def staleOps : List Op :=
  [.Create sampleA, .Create sampleB, .Update sampleA2, .Update sampleA]

/-- Two invocations for the subject "u1" with email "a@x.com", reading the clock at 1
and at 2. -/
def raceCalls : List ResolveCall :=
  [{ authService := verifierU1, now := 1, tokenValue := "t0" },
   { authService := verifierU1, now := 2, tokenValue := "t1" }]

/-- An interleaving of `raceCalls` in which both invocations miss in `FindByID` before
either calls `Create`, and the second one calls `Create` first. -/
def raceSched : List Nat := [0, 1, 0, 1, 1, 0, 0]

/-! ## Lemmas on Go maps -/

theorem mapGet_mapDelete {V : Type} (m : GoMap V) (key k : String) :
    mapGet (mapDelete m key) k = if key = k then none else mapGet m k := by
  induction m with
  | nil => simp [mapDelete, mapGet]
  | cons e m ih =>
    obtain ⟨a, v⟩ := e
    by_cases h : a = key
    · subst h
      by_cases h2 : a = k
      · subst h2
        simpa [mapDelete] using ih
      · simp [mapDelete, mapGet, ih, h2]
    · by_cases h2 : key = k
      · subst h2
        simp [mapDelete, mapGet, ih, h]
      · simp [mapDelete, mapGet, ih, h, h2]

theorem mapGet_mapSet {V : Type} (m : GoMap V) (key k : String) (v : V) :
    mapGet (mapSet m key v) k = if key = k then some v else mapGet m k := by
  by_cases h : key = k
  · simp [mapSet, mapGet, h]
  · simp [mapSet, mapGet, h, mapGet_mapDelete]

theorem mapDelete_of_absent {V : Type} (m : GoMap V) (key : String)
    (h : mapGet m key = none) : mapDelete m key = m := by
  induction m with
  | nil => rfl
  | cons e m ih =>
    obtain ⟨a, v⟩ := e
    by_cases ha : a = key
    · simp [mapGet, ha] at h
    · simp only [mapGet, ha, if_false] at h
      simp [mapDelete, ha, ih h]

theorem mapLen_mapSet_of_absent {V : Type} (m : GoMap V) (key : String) (v : V)
    (h : mapGet m key = none) : mapLen (mapSet m key v) = mapLen m + 1 := by
  simp [mapSet, mapLen, mapDelete_of_absent m key h, h]

/-! ## Create -/

theorem Create_success_state (r : UserRepository) (u : User) (h : (r.Create u).1 = none) :
    (r.Create u).2 =
      { users := mapSet r.users u.ID u, index := mapSet r.index u.Email u.ID } := by
  unfold UserRepository.Create at h ⊢
  split at h
  · simp at h
  · split at h
    · simp at h
    · simp [*]

/-- C1: `Create(u)` returns a nil error exactly when `u.ID` is not a key of `users` and
`u.Email` is not a key of `index`; when it returns an error both maps are what they were;
when it succeeds the state is the old one with `users[u.ID] = u` and
`index[u.Email] = u.ID`, every other key of either map reads as before, and each map has
one more entry. -/
theorem Create_contract (r : UserRepository) (u : User) :
    ((r.Create u).1 = none ↔ (mapGet r.users u.ID = none ∧ mapGet r.index u.Email = none)) ∧
    ((r.Create u).1 ≠ none → (r.Create u).2 = r) ∧
    ((r.Create u).1 = none →
      (r.Create u).2 =
          { users := mapSet r.users u.ID u, index := mapSet r.index u.Email u.ID } ∧
      mapGet (r.Create u).2.users u.ID = some u ∧
      mapGet (r.Create u).2.index u.Email = some u.ID ∧
      (∀ id, id ≠ u.ID → mapGet (r.Create u).2.users id = mapGet r.users id) ∧
      (∀ e, e ≠ u.Email → mapGet (r.Create u).2.index e = mapGet r.index e) ∧
      mapLen (r.Create u).2.users = mapLen r.users + 1 ∧
      mapLen (r.Create u).2.index = mapLen r.index + 1) := by
  unfold UserRepository.Create
  cases hu : mapGet r.users u.ID with
  | some x => simp
  | none =>
    cases he : mapGet r.index u.Email with
    | some y => simp
    | none =>
      simp only [Option.isSome_none, Bool.false_eq_true, if_false, true_and, and_self,
        ne_eq, not_true_eq_false, false_implies, forall_true_left, true_implies]
      refine ⟨by simp [mapGet_mapSet], by simp [mapGet_mapSet], ?_, ?_,
        mapLen_mapSet_of_absent _ _ _ hu, mapLen_mapSet_of_absent _ _ _ he⟩
      · intro id hid
        simp [mapGet_mapSet, Ne.symm hid]
      · intro e hne
        simp [mapGet_mapSet, Ne.symm hne]

/-- Witness for C1 on a fresh repository (success) and on `repoA` with a second user
carrying the same email (failure). -/
theorem Create_contract_witness :
    (NewUserRepository.Create sampleA).2 = repoA ∧
    (repoA.Create { sampleB with Email := "a@x.com" }).2 = repoA :=
  ⟨((Create_contract NewUserRepository sampleA).2.2 (by decide)).1.trans (by decide),
   (Create_contract repoA { sampleB with Email := "a@x.com" }).2.1 (by decide)⟩

/-- C9: when `Create(u)` succeeds, `FindByEmail(u.Email)` and `FindByID(u.ID)` on the
resulting directory both succeed and return the same record, which is `u`. -/
theorem Create_then_find (r : UserRepository) (u : User) (h : (r.Create u).1 = none) :
    (r.Create u).2.FindByEmail u.Email = .ok (some u) ∧
    (r.Create u).2.FindByID u.ID = .ok (some u) ∧
    (r.Create u).2.FindByEmail u.Email = (r.Create u).2.FindByID u.ID := by
  rw [Create_success_state r u h]
  simp [UserRepository.FindByEmail, UserRepository.FindByID, mapGet_mapSet]

/-- Witness for C9: creating `sampleB` in `repoA`. -/
theorem Create_then_find_witness :
    (repoA.Create sampleB).1 = none ∧
    (repoA.Create sampleB).2.FindByEmail "b@x.com" = .ok (some sampleB) ∧
    (repoA.Create sampleB).2.FindByID "u2" = .ok (some sampleB) :=
  ⟨by decide, (Create_then_find repoA sampleB (by decide)).1,
    (Create_then_find repoA sampleB (by decide)).2.1⟩

/-! ## Update -/

theorem mapLen_mapDelete {V : Type} (m : GoMap V) (key : String) :
    mapLen (mapDelete m key) + (if (mapGet m key).isSome then 1 else 0) = mapLen m := by
  induction m with
  | nil => simp [mapDelete, mapGet, mapLen]
  | cons e m ih =>
    obtain ⟨a, v⟩ := e
    by_cases ha : a = key
    · subst ha
      simp only [mapDelete, mapGet, mapLen, if_true, Option.isSome_some]
      split at ih <;> simp_all
    · have hka : ¬ key = a := fun h => ha h.symm
      simp only [mapDelete, mapGet, mapLen, ha, if_false, mapGet_mapDelete, hka]
      split <;> omega

theorem mapLen_mapSet_of_present {V : Type} (m : GoMap V) (key : String) (v : V)
    (h : (mapGet m key).isSome) : mapLen (mapSet m key v) = mapLen m := by
  have := mapLen_mapDelete m key
  simp [h] at this
  simp [mapSet, mapLen, mapGet_mapDelete, this]

/-- C10: `Update(u)` returns a nil error exactly when `u.ID` is a key of `users`; otherwise
it returns the error "user not found" and leaves both maps as they were. In either case
the keys of `users`, and their number, are the same after the call as before. -/
theorem Update_contract (r : UserRepository) (u : User) :
    ((r.Update u).1 = none ↔ (mapGet r.users u.ID).isSome) ∧
    (mapGet r.users u.ID = none →
      (r.Update u).1 = some "user not found" ∧ (r.Update u).2 = r) ∧
    (∀ id, (mapGet (r.Update u).2.users id).isSome = (mapGet r.users id).isSome) ∧
    mapLen (r.Update u).2.users = mapLen r.users := by
  unfold UserRepository.Update
  cases hu : mapGet r.users u.ID with
  | none => simp
  | some existing =>
    refine ⟨by simp, by simp, ?_, ?_⟩
    · intro id
      by_cases hid : u.ID = id
      · subst hid
        simp [mapGet_mapSet, hu]
      · simp [mapGet_mapSet, hid]
    · exact mapLen_mapSet_of_present _ _ _ (by simp [hu])

/-- Witness for C10: updating the absent "u2" in `repoA` fails and changes nothing. -/
theorem Update_contract_witness :
    (repoA.Update sampleB).1 = some "user not found" ∧ (repoA.Update sampleB).2 = repoA :=
  (Update_contract repoA sampleB).2.1 (by decide)

/-- C8: in a directory where `users[u.ID]` is a record with an email different from
`u.Email`, `Update(u)` succeeds, and afterwards `FindByEmail` of the old email fails with
"user not found" while `FindByEmail(u.Email)` and `FindByID(u.ID)` both return `u`. -/
theorem Update_repoints_index (r : UserRepository) (u existing : User)
    (hex : mapGet r.users u.ID = some existing) (hne : u.Email ≠ existing.Email) :
    (r.Update u).1 = none ∧
    (r.Update u).2.FindByEmail existing.Email = .error "user not found" ∧
    (r.Update u).2.FindByEmail u.Email = .ok (some u) ∧
    (r.Update u).2.FindByID u.ID = .ok (some u) := by
  have hne2 : ¬ existing.Email = u.Email := fun h => hne h.symm
  simp [UserRepository.Update, hex, hne, hne2, UserRepository.FindByEmail,
    UserRepository.FindByID, mapGet_mapSet, mapGet_mapDelete]

/-- Witness for C8: in `repoA`, moving "u1" from "a@x.com" to "b@x.com". -/
theorem Update_repoints_index_witness :
    (repoA.Update sampleA2).1 = none ∧
    (repoA.Update sampleA2).2.FindByEmail "a@x.com" = .error "user not found" ∧
    (repoA.Update sampleA2).2.FindByEmail "b@x.com" = .ok (some sampleA2) ∧
    (repoA.Update sampleA2).2.FindByID "u1" = .ok (some sampleA2) :=
  Update_repoints_index repoA sampleA2 sampleA (by decide) (by decide)

/-- C3: in `repoAB`, which holds "u1" under "a@x.com" and "u2" under "b@x.com",
`Update` of "u1" to the email "b@x.com" returns no error; afterwards `FindByEmail` of
"b@x.com" returns the record of "u1", `FindByEmail` of "a@x.com" fails and `FindByID` of
"u1" returns the new record, while `FindByID` of "u2" still returns `sampleB`. -/
theorem Update_email_conflict_not_detected :
    repoAB.FindByEmail "b@x.com" = .ok (some sampleB) ∧
    repoAB.FindByEmail "a@x.com" = .ok (some sampleA) ∧
    (repoAB.Update sampleA2).1 = none ∧
    (repoAB.Update sampleA2).2.FindByEmail "b@x.com" = .ok (some sampleA2) ∧
    (repoAB.Update sampleA2).2.FindByEmail "a@x.com" = .error "user not found" ∧
    (repoAB.Update sampleA2).2.FindByID "u1" = .ok (some sampleA2) ∧
    (repoAB.Update sampleA2).2.FindByID "u2" = .ok (some sampleB) := by
  decide

/-! ## The dual-index invariant along sequences of calls -/

theorem IndexSound_Create (r : UserRepository) (u : User) (h : IndexSound r) :
    IndexSound (r.Create u).2 := by
  unfold UserRepository.Create
  cases hu : mapGet r.users u.ID with
  | some x => simpa using h
  | none =>
    cases he : mapGet r.index u.Email with
    | some y => simpa using h
    | none =>
      intro email id hget
      simp only [Option.isSome_none, Bool.false_eq_true, if_false, mapGet_mapSet] at hget ⊢
      by_cases hem : u.Email = email
      · simp only [hem, if_true, Option.some.injEq] at hget
        subst hget
        exact ⟨u, by simp, hem⟩
      · simp only [hem, if_false] at hget
        obtain ⟨u0, hu0, hmail⟩ := h email id hget
        have hid : ¬ u.ID = id := by
          intro hc
          rw [hc, hu0] at hu
          cases hu
        exact ⟨u0, by simp [hid, hu0], hmail⟩

theorem IndexSound_Update (r : UserRepository) (u : User) (h : IndexSound r) :
    IndexSound (r.Update u).2 := by
  unfold UserRepository.Update
  cases hu : mapGet r.users u.ID with
  | none => simpa using h
  | some existing =>
    intro email id hget
    simp only [mapGet_mapSet] at hget ⊢
    by_cases hch : existing.Email = u.Email
    · simp only [ne_eq, hch, not_true_eq_false, if_false] at hget
      obtain ⟨u0, hu0, hmail⟩ := h email id hget
      by_cases hid : u.ID = id
      · subst hid
        rw [hu] at hu0
        cases hu0
        exact ⟨u, by simp, hch ▸ hmail⟩
      · exact ⟨u0, by simp [hid, hu0], hmail⟩
    · simp only [ne_eq, hch, not_false_eq_true, if_true, mapGet_mapSet,
        mapGet_mapDelete] at hget
      by_cases hem : u.Email = email
      · simp only [hem, if_true, Option.some.injEq] at hget
        subst hget
        exact ⟨u, by simp, hem⟩
      · simp only [hem, if_false] at hget
        by_cases hold : existing.Email = email
        · simp [hold] at hget
        · simp only [hold, if_false] at hget
          obtain ⟨u0, hu0, hmail⟩ := h email id hget
          have hid : ¬ u.ID = id := by
            intro hc
            rw [hc, hu0] at hu
            cases hu
            exact hold hmail
          exact ⟨u0, by simp [hid, hu0], hmail⟩

theorem IndexSound_foldl (ops : List Op) (r : UserRepository) (h : IndexSound r) :
    IndexSound (ops.foldl applyOp r) := by
  induction ops generalizing r with
  | nil => exact h
  | cons op ops ih =>
    cases op with
    | Create u => exact ih _ (IndexSound_Create r u h)
    | Update u => exact ih _ (IndexSound_Update r u h)

/-- The first half of the dual-index invariant holds in every state reached from
`NewUserRepository()` by `Create` and `Update` calls: an index entry `email -> id` always
points at a stored user whose email is `email`. -/
theorem IndexSound_run (ops : List Op) : IndexSound (run ops) :=
  IndexSound_foldl ops NewUserRepository (by intro email id hget; simp [NewUserRepository, mapGet] at hget)

/-- C2: the state reached by `Create(sampleA)`, `Create(sampleB)` and then `Update` of "u1"
to the email of "u2" stores two users but has a single index entry, "b@x.com" -> "u1":
the user "u2" has no index entry, the two maps differ in size, and the dual-index
invariant does not hold. -/
theorem Update_breaks_dual_index :
    run [.Create sampleA, .Create sampleB, .Update sampleA2] =
      { users := [("u1", sampleA2), ("u2", sampleB)], index := [("b@x.com", "u1")] } ∧
    mapLen (run [.Create sampleA, .Create sampleB, .Update sampleA2]).users = 2 ∧
    mapLen (run [.Create sampleA, .Create sampleB, .Update sampleA2]).index = 1 ∧
    ¬ EveryUserIndexed (run [.Create sampleA, .Create sampleB, .Update sampleA2]) ∧
    ¬ DualIndex (run [.Create sampleA, .Create sampleB, .Update sampleA2]) := by
  have hrun : run [.Create sampleA, .Create sampleB, .Update sampleA2] =
      { users := [("u1", sampleA2), ("u2", sampleB)], index := [("b@x.com", "u1")] } := by
    decide
  have hnot : ¬ EveryUserIndexed (run [.Create sampleA, .Create sampleB, .Update sampleA2]) := by
    intro hall
    obtain ⟨email, hemail, _⟩ := hall "u2" sampleB (by decide)
    rw [hrun] at hemail
    simp only [mapGet] at hemail
    split at hemail
    · exact absurd hemail (by decide)
    · exact absurd hemail (by simp)
  exact ⟨hrun, by decide, by decide, hnot, fun hd => hnot hd.2.1⟩

/-! ## VerifyTokenAndGetUser -/

theorem resolve_found (authService : String → Except Error Token) (now : Time)
    (r : UserRepository) (tokenValue : String) (token : Token) (u : User)
    (hv : authService tokenValue = .ok token) (hu : mapGet r.users token.UserID = some u) :
    VerifyTokenAndGetUser authService now r tokenValue =
      { result := .ok (token, some u), repo := r, calls := [.FindByID token.UserID] } := by
  simp [VerifyTokenAndGetUser, hv, UserRepository.FindByID, hu]

theorem resolve_created (authService : String → Except Error Token) (now : Time)
    (r : UserRepository) (tokenValue : String) (token : Token)
    (hv : authService tokenValue = .ok token) (hu : mapGet r.users token.UserID = none)
    (he : mapGet r.index token.Email = none) :
    VerifyTokenAndGetUser authService now r tokenValue =
      { result := .ok (token, some (NewUser now token.UserID token.Email)),
        repo :=
          { users := mapSet r.users token.UserID (NewUser now token.UserID token.Email),
            index := mapSet r.index token.Email token.UserID },
        calls := [.FindByID token.UserID,
          .Create (NewUser now token.UserID token.Email)] } := by
  simp [VerifyTokenAndGetUser, hv, UserRepository.FindByID, hu, UserRepository.Create,
    NewUser, he]

theorem resolve_conflict (authService : String → Except Error Token) (now : Time)
    (r : UserRepository) (tokenValue : String) (token : Token) (owner : String)
    (hv : authService tokenValue = .ok token) (hu : mapGet r.users token.UserID = none)
    (he : mapGet r.index token.Email = some owner) :
    VerifyTokenAndGetUser authService now r tokenValue =
      { result := .error "email already taken", repo := r,
        calls := [.FindByID token.UserID,
          .Create (NewUser now token.UserID token.Email), .FindByID token.UserID] } := by
  simp [VerifyTokenAndGetUser, hv, UserRepository.FindByID, hu, UserRepository.Create,
    NewUser, he]

theorem resolve_rejected (authService : String → Except Error Token) (now : Time)
    (r : UserRepository) (tokenValue : String) (e : Error)
    (hv : authService tokenValue = .error e) :
    VerifyTokenAndGetUser authService now r tokenValue =
      { result := .error e, repo := r, calls := [] } := by
  simp [VerifyTokenAndGetUser, hv]

theorem resolve_ok_stored (authService : String → Except Error Token) (now : Time)
    (r : UserRepository) (tokenValue : String) (token : Token) (u : User)
    (h : (VerifyTokenAndGetUser authService now r tokenValue).result = .ok (token, some u)) :
    authService tokenValue = .ok token ∧
    mapGet (VerifyTokenAndGetUser authService now r tokenValue).repo.users token.UserID =
      some u := by
  cases hv : authService tokenValue with
  | error e =>
    rw [resolve_rejected authService now r tokenValue e hv] at h
    cases h
  | ok t =>
    cases hu : mapGet r.users t.UserID with
    | some x =>
      rw [resolve_found authService now r tokenValue t x hv hu] at h ⊢
      simp only [Except.ok.injEq, Prod.mk.injEq, Option.some.injEq] at h
      obtain ⟨rfl, rfl⟩ := h
      exact ⟨rfl, hu⟩
    | none =>
      cases he : mapGet r.index t.Email with
      | some owner =>
        rw [resolve_conflict authService now r tokenValue t owner hv hu he] at h
        cases h
      | none =>
        rw [resolve_created authService now r tokenValue t hv hu he] at h ⊢
        simp only [Except.ok.injEq, Prod.mk.injEq, Option.some.injEq] at h
        obtain ⟨rfl, rfl⟩ := h
        exact ⟨rfl, by simp [mapGet_mapSet]⟩

theorem resolve_preserves_user (authService : String → Except Error Token) (now : Time)
    (r : UserRepository) (tokenValue : String) (id : String) (u : User)
    (h : mapGet r.users id = some u) :
    mapGet (VerifyTokenAndGetUser authService now r tokenValue).repo.users id = some u := by
  cases hv : authService tokenValue with
  | error e => rw [resolve_rejected authService now r tokenValue e hv]; exact h
  | ok t =>
    cases hu : mapGet r.users t.UserID with
    | some x => rw [resolve_found authService now r tokenValue t x hv hu]; exact h
    | none =>
      cases he : mapGet r.index t.Email with
      | some owner => rw [resolve_conflict authService now r tokenValue t owner hv hu he]; exact h
      | none =>
        rw [resolve_created authService now r tokenValue t hv hu he]
        have hid : ¬ t.UserID = id := by
          intro hc
          rw [hc, h] at hu
          cases hu
        simp [mapGet_mapSet, hid, h]

theorem runResolves_preserves_user (cs : List ResolveCall) (r : UserRepository)
    (id : String) (u : User) (h : mapGet r.users id = some u) :
    mapGet (runResolves r cs).users id = some u := by
  induction cs generalizing r with
  | nil => exact h
  | cons c cs ih =>
    exact ih _ (resolve_preserves_user c.authService c.now r c.tokenValue id u h)

/-- In a directory satisfying the dual-index invariant, a user stored under its own email
is the one `FindByEmail` finds under that email. -/
theorem FindByEmail_of_DualIndex (r : UserRepository) (id : String) (u1 : User)
    (hinv : DualIndex r) (hu : mapGet r.users id = some u1) :
    r.FindByEmail u1.Email = .ok (some u1) := by
  obtain ⟨email, hidx, _⟩ := hinv.2.1 id u1 hu
  obtain ⟨u0, hu0, hmail⟩ := hinv.1 email id hidx
  rw [hu] at hu0
  cases hu0
  simp [UserRepository.FindByEmail, hmail, hidx, hu]

/-- C4, counterexample: in `repoA` the subject "u2" is not a key of the directory, yet a
valid token for "u2" claiming the stored email "a@x.com" is refused with
"email already taken" and the directory keeps its single user. -/
theorem resolve_unseen_subject_taken_email :
    verifierU2 "tok" = .ok { Value := "tok", UserID := "u2", Email := "a@x.com" } ∧
    mapGet repoA.users "u2" = none ∧
    (VerifyTokenAndGetUser verifierU2 5 repoA "tok").result = .error "email already taken" ∧
    (VerifyTokenAndGetUser verifierU2 5 repoA "tok").repo = repoA ∧
    mapLen (VerifyTokenAndGetUser verifierU2 5 repoA "tok").repo.users = mapLen repoA.users := by
  decide

/-- C4, amended: for a token that verifies to a subject ID that is not a key of `users`
and to an email that is not a key of `index`, `VerifyTokenAndGetUser` succeeds and returns
the token with a user whose ID is the subject ID, whose email is the claimed email and
whose timestamps are the clock reading; that user is stored under the subject ID, every
other ID reads as before, `users` has exactly one more entry, and the calls made are one
`FindByID` and one `Create`. -/
theorem resolve_provisions_unseen_subject (authService : String → Except Error Token)
    (now : Time) (r : UserRepository) (tokenValue : String) (token : Token)
    (hv : authService tokenValue = .ok token)
    (hid : mapGet r.users token.UserID = none)
    (hem : mapGet r.index token.Email = none) :
    ∃ u : User,
      (VerifyTokenAndGetUser authService now r tokenValue).result = .ok (token, some u) ∧
      u.ID = token.UserID ∧ u.Email = token.Email ∧ u.CreatedAt = now ∧ u.UpdatedAt = now ∧
      (VerifyTokenAndGetUser authService now r tokenValue).repo.FindByID token.UserID =
        .ok (some u) ∧
      (∀ id, id ≠ token.UserID →
        mapGet (VerifyTokenAndGetUser authService now r tokenValue).repo.users id =
          mapGet r.users id) ∧
      mapLen (VerifyTokenAndGetUser authService now r tokenValue).repo.users =
        mapLen r.users + 1 ∧
      (VerifyTokenAndGetUser authService now r tokenValue).calls =
        [.FindByID token.UserID, .Create u] := by
  refine ⟨NewUser now token.UserID token.Email, ?_⟩
  rw [resolve_created authService now r tokenValue token hv hid hem]
  refine ⟨rfl, rfl, rfl, rfl, rfl, ?_, ?_, mapLen_mapSet_of_absent _ _ _ hid, rfl⟩
  · simp [UserRepository.FindByID, mapGet_mapSet]
  · intro id hne
    simp [mapGet_mapSet, Ne.symm hne]

/-- Witness for C4 (amended): the first token for "u1" on a fresh repository. -/
theorem resolve_provisions_unseen_subject_witness :
    ∃ u : User,
      (VerifyTokenAndGetUser verifierU1 1 NewUserRepository "tok").result =
        .ok ({ Value := "tok", UserID := "u1", Email := "a@x.com" }, some u) ∧
      u.ID = "u1" ∧ u.Email = "a@x.com" ∧
      mapLen (VerifyTokenAndGetUser verifierU1 1 NewUserRepository "tok").repo.users = 1 := by
  obtain ⟨u, h1, h2, h3, _, _, _, _, h4, _⟩ :=
    resolve_provisions_unseen_subject verifierU1 1 NewUserRepository "tok"
      { Value := "tok", UserID := "u1", Email := "a@x.com" } (by decide) (by decide) (by decide)
  exact ⟨u, h1, h2, h3, h4⟩

/-- C5: once a `VerifyTokenAndGetUser` call has succeeded with user `u` for a token of
subject `token1.UserID`, then after any further sequence `between` of
`VerifyTokenAndGetUser` calls, a call whose token verifies to the same subject ID returns
that same record `u` (so the same ID, email and `CreatedAt`), makes the single repository
call `FindByID` (no `Create`), and leaves both maps of the directory as they were. -/
theorem resolve_idempotent (first : ResolveCall) (r : UserRepository) (token1 : Token)
    (u : User) (between : List ResolveCall) (later : ResolveCall) (token2 : Token)
    (h1 : (VerifyTokenAndGetUser first.authService first.now r first.tokenValue).result =
      .ok (token1, some u))
    (hv2 : later.authService later.tokenValue = .ok token2)
    (hsame : token2.UserID = token1.UserID) :
    VerifyTokenAndGetUser later.authService later.now
        (runResolves (VerifyTokenAndGetUser first.authService first.now r
          first.tokenValue).repo between) later.tokenValue =
      { result := .ok (token2, some u),
        repo := runResolves (VerifyTokenAndGetUser first.authService first.now r
          first.tokenValue).repo between,
        calls := [.FindByID token2.UserID] } := by
  have hstored := (resolve_ok_stored first.authService first.now r first.tokenValue token1 u h1).2
  have hkept := runResolves_preserves_user between _ token1.UserID u hstored
  rw [← hsame] at hkept
  exact resolve_found later.authService later.now _ later.tokenValue token2 u hv2 hkept

/-- Witness for C5: two calls for "u1" at clock readings 1 and 9 on a fresh repository,
with a call for "u2" in between; the second call for "u1" returns the record created at
reading 1. -/
theorem resolve_idempotent_witness :
    (VerifyTokenAndGetUser verifierU1 9
        (runResolves (VerifyTokenAndGetUser verifierU1 1 NewUserRepository "tok").repo
          [{ authService := verifierU2, now := 4, tokenValue := "other" }]) "tok").result =
      .ok ({ Value := "tok", UserID := "u1", Email := "a@x.com" }, some sampleA) :=
  congrArg Outcome.result
    (resolve_idempotent { authService := verifierU1, now := 1, tokenValue := "tok" }
      NewUserRepository { Value := "tok", UserID := "u1", Email := "a@x.com" } sampleA
      [{ authService := verifierU2, now := 4, tokenValue := "other" }]
      { authService := verifierU1, now := 9, tokenValue := "tok" }
      { Value := "tok", UserID := "u1", Email := "a@x.com" } (by decide) (by decide) rfl)

/-- When the token verifies to a subject ID that is not a key of `users` and to an email
under which `FindByEmail` finds a user `u1`, `VerifyTokenAndGetUser` fails with the error
returned by `Create`, which is "email already taken" and not the "user not found" of the
second `FindByID`; it returns neither token nor user, and the directory is unchanged:
`FindByEmail` still finds `u1` and `FindByID` of the subject still fails. -/
theorem resolve_email_conflict_propagates (authService : String → Except Error Token)
    (now : Time) (r : UserRepository) (tokenValue : String) (token : Token) (u1 : User)
    (hv : authService tokenValue = .ok token)
    (hid : mapGet r.users token.UserID = none)
    (hem : r.FindByEmail token.Email = .ok (some u1)) :
    r.Create (NewUser now token.UserID token.Email) = (some "email already taken", r) ∧
    r.FindByID token.UserID = .error "user not found" ∧
    (VerifyTokenAndGetUser authService now r tokenValue).result =
      .error "email already taken" ∧
    (VerifyTokenAndGetUser authService now r tokenValue).repo = r ∧
    (VerifyTokenAndGetUser authService now r tokenValue).repo.FindByEmail token.Email =
      .ok (some u1) ∧
    (VerifyTokenAndGetUser authService now r tokenValue).repo.FindByID token.UserID =
      .error "user not found" ∧
    (VerifyTokenAndGetUser authService now r tokenValue).calls =
      [.FindByID token.UserID, .Create (NewUser now token.UserID token.Email),
        .FindByID token.UserID] := by
  cases he : mapGet r.index token.Email with
  | none => simp [UserRepository.FindByEmail, he] at hem
  | some owner =>
    rw [resolve_conflict authService now r tokenValue token owner hv hid he]
    refine ⟨?_, ?_, rfl, rfl, hem, ?_, rfl⟩
    · simp [UserRepository.Create, NewUser, hid, he]
    · simp [UserRepository.FindByID, hid]
    · simp [UserRepository.FindByID, hid]

/-- The email conflict on `repoA`: a token for "u2" claiming the indexed "a@x.com". -/
theorem resolve_email_conflict_propagates_witness :
    (VerifyTokenAndGetUser verifierU2 5 repoA "tok").result = .error "email already taken" ∧
    (VerifyTokenAndGetUser verifierU2 5 repoA "tok").repo = repoA :=
  ⟨(resolve_email_conflict_propagates verifierU2 5 repoA "tok"
      { Value := "tok", UserID := "u2", Email := "a@x.com" } sampleA
      (by decide) (by decide) (by decide)).2.2.1,
   (resolve_email_conflict_propagates verifierU2 5 repoA "tok"
      { Value := "tok", UserID := "u2", Email := "a@x.com" } sampleA
      (by decide) (by decide) (by decide)).2.2.2.1⟩

/-- C6: the directory reached by `staleOps` stores "u2" with the email "b@x.com", has no
user "u3", and its index has lost the entry for "b@x.com". A token for the subject "u3"
claiming "b@x.com" is not refused there: `VerifyTokenAndGetUser` makes one `FindByID` and one
`Create`, the `Create` returns a nil error, the call returns the new user "u3" with the
email "b@x.com", and the directory ends with three users, two of them carrying
"b@x.com". -/
theorem resolve_email_conflict_missed :
    run staleOps =
      { users := [("u1", sampleA), ("u2", sampleB)], index := [("a@x.com", "u1")] } ∧
    (run staleOps).FindByID "u2" = .ok (some sampleB) ∧
    sampleB.Email = "b@x.com" ∧
    (run staleOps).FindByID "u3" = .error "user not found" ∧
    (run staleOps).FindByEmail "b@x.com" = .error "user not found" ∧
    ((run staleOps).Create (NewUser 7 "u3" "b@x.com")).1 = none ∧
    (VerifyTokenAndGetUser verifierU3 7 (run staleOps) "tok").result =
      .ok ({ Value := "tok", UserID := "u3", Email := "b@x.com" },
        some (NewUser 7 "u3" "b@x.com")) ∧
    (VerifyTokenAndGetUser verifierU3 7 (run staleOps) "tok").calls =
      [.FindByID "u3", .Create (NewUser 7 "u3" "b@x.com")] ∧
    (VerifyTokenAndGetUser verifierU3 7 (run staleOps) "tok").repo =
      { users := [("u3", NewUser 7 "u3" "b@x.com"), ("u1", sampleA), ("u2", sampleB)],
        index := [("b@x.com", "u3"), ("a@x.com", "u1")] } ∧
    (VerifyTokenAndGetUser verifierU3 7 (run staleOps) "tok").repo.FindByID "u2" =
      .ok (some sampleB) ∧
    mapLen (VerifyTokenAndGetUser verifierU3 7 (run staleOps) "tok").repo.users = 3 := by
  decide

/-- C7: when the verifier fails with `e`, `VerifyTokenAndGetUser` returns exactly `e`
(with neither token nor user), makes no repository call and leaves the directory as it
was; and `VerifyToken` returns the verifier's result for every token, makes no repository
call and leaves the directory as it was. -/
theorem verify_failure_propagates (authService : String → Except Error Token) (now : Time)
    (r : UserRepository) (tokenValue : String) :
    (∀ e, authService tokenValue = .error e →
      (VerifyTokenAndGetUser authService now r tokenValue).result = .error e ∧
      (VerifyTokenAndGetUser authService now r tokenValue).repo = r ∧
      (VerifyTokenAndGetUser authService now r tokenValue).calls = []) ∧
    (VerifyToken authService r tokenValue).result = authService tokenValue ∧
    (VerifyToken authService r tokenValue).repo = r ∧
    (VerifyToken authService r tokenValue).calls = [] := by
  refine ⟨?_, rfl, rfl, rfl⟩
  intro e he
  rw [resolve_rejected authService now r tokenValue e he]
  exact ⟨rfl, rfl, rfl⟩

/-- Witness for C7: a rejected token against `repoA`. -/
theorem verify_failure_propagates_witness :
    (VerifyTokenAndGetUser verifierReject 5 repoA "tok").result =
      .error "invalid or expired token" ∧
    (VerifyTokenAndGetUser verifierReject 5 repoA "tok").repo = repoA ∧
    (VerifyTokenAndGetUser verifierReject 5 repoA "tok").calls = [] :=
  (verify_failure_propagates verifierReject 5 repoA "tok").1 "invalid or expired token"
    (by decide)

/-! ## Concurrent invocations of VerifyTokenAndGetUser -/

theorem forall_mem_set {α : Type} (P : α → Prop) (l : List α) (i : Nat) (a : α)
    (hl : ∀ x ∈ l, P x) (ha : P a) : ∀ x ∈ l.set i a, P x := by
  intro x hx
  rcases List.mem_or_eq_of_mem_set hx with h | h
  · exact hl x h
  · exact h ▸ ha

theorem stepThread_call (t : Thread) (r : UserRepository) : (stepThread t r).1.call = t.call := by
  unfold stepThread
  split
  · split <;> rfl
  · split <;> rfl
  · dsimp only
    split <;> rfl
  · split <;> rfl
  · rfl

theorem stepThread_rank (t : Thread) (r : UserRepository) :
    (stepThread t r).1.pc.rank ≤ t.pc.rank - 1 := by
  unfold stepThread
  split
  · rename_i h
    split <;> simp [h, Pc.rank]
  · rename_i h
    split <;> simp [h, Pc.rank]
  · rename_i h
    dsimp only
    split <;> simp [h, Pc.rank]
  · rename_i h
    split <;> simp [h, Pc.rank]
  · simp [Pc.rank]

theorem Thread.Early.late {sid email : String} {t : Thread} (u : User)
    (h : t.Early sid email) : t.Late sid email u := by
  obtain ⟨token, hv, hpc⟩ := h
  refine ⟨token, hv, ?_⟩
  rcases hpc with h | h | h
  · exact Or.inl h
  · exact Or.inr (Or.inl h)
  · exact Or.inr (Or.inr (Or.inl h))

/-- A step of an invocation while no `Create` has succeeded, on the initial repository:
either nothing is created and the repository is untouched, or this invocation creates its
user and returns it. -/
theorem stepThread_early (r0 : UserRepository) (sid email : String) (t : Thread)
    (hid : mapGet r0.users sid = none) (hem : mapGet r0.index email = none)
    (ht : t.Early sid email) :
    ((stepThread t r0).2.2 = [] ∧ (stepThread t r0).2.1 = r0 ∧
      (stepThread t r0).1.Early sid email) ∨
    (∃ u : User, u.ID = sid ∧ u.Email = email ∧ (stepThread t r0).2.2 = [u] ∧
      (stepThread t r0).2.1 =
        { users := mapSet r0.users sid u, index := mapSet r0.index email sid } ∧
      (stepThread t r0).1.Late sid email u) := by
  obtain ⟨token, hv, hpc⟩ := ht
  obtain ⟨hv1, hv2, hv3⟩ := hv
  rcases hpc with h | h | h
  · left
    have hstep : stepThread t r0 = ({ t with pc := .find token }, r0, []) := by
      simp [stepThread, h, hv1]
    rw [hstep]
    exact ⟨rfl, rfl, token, ⟨hv1, hv2, hv3⟩, Or.inr (Or.inl rfl)⟩
  · left
    have hstep : stepThread t r0 = ({ t with pc := .create token }, r0, []) := by
      simp [stepThread, h, UserRepository.FindByID, hv2, hid]
    rw [hstep]
    exact ⟨rfl, rfl, token, ⟨hv1, hv2, hv3⟩, Or.inr (Or.inr rfl)⟩
  · right
    have hstep : stepThread t r0 =
        ({ t with pc := .done (.ok (token, some (NewUser t.call.now sid email))) },
          { users := mapSet r0.users sid (NewUser t.call.now sid email),
            index := mapSet r0.index email sid },
          [NewUser t.call.now sid email]) := by
      simp [stepThread, h, UserRepository.Create, NewUser, hv2, hv3, hid, hem]
    rw [hstep]
    exact ⟨NewUser t.call.now sid email, rfl, rfl, rfl, rfl, token, ⟨hv1, hv2, hv3⟩,
      Or.inr (Or.inr (Or.inr (Or.inr rfl)))⟩

/-- A step of an invocation once `u` has been created: nothing more is created, the
repository is untouched, and the invocation is still on its way or has returned `u`. -/
theorem stepThread_late (r0 : UserRepository) (sid email : String) (u : User) (t : Thread)
    (ht : t.Late sid email u) :
    (stepThread t { users := mapSet r0.users sid u, index := mapSet r0.index email sid }).2.2
      = [] ∧
    (stepThread t { users := mapSet r0.users sid u, index := mapSet r0.index email sid }).2.1
      = { users := mapSet r0.users sid u, index := mapSet r0.index email sid } ∧
    (stepThread t
      { users := mapSet r0.users sid u, index := mapSet r0.index email sid }).1.Late
        sid email u := by
  obtain ⟨token, hv, hpc⟩ := ht
  obtain ⟨hv1, hv2, hv3⟩ := hv
  have hv : ∀ pc0 : Pc, Thread.VerifiesTo sid email { t with pc := pc0 } token :=
    fun _ => ⟨hv1, hv2, hv3⟩
  rcases hpc with h | h | h | ⟨err, h⟩ | h
  · have hstep : stepThread t
        { users := mapSet r0.users sid u, index := mapSet r0.index email sid } =
        ({ t with pc := .find token },
          { users := mapSet r0.users sid u, index := mapSet r0.index email sid }, []) := by
      simp [stepThread, h, hv1]
    rw [hstep]
    exact ⟨rfl, rfl, token, hv _, Or.inr (Or.inl rfl)⟩
  · have hstep : stepThread t
        { users := mapSet r0.users sid u, index := mapSet r0.index email sid } =
        ({ t with pc := .done (.ok (token, some u)) },
          { users := mapSet r0.users sid u, index := mapSet r0.index email sid }, []) := by
      simp [stepThread, h, UserRepository.FindByID, hv2, mapGet_mapSet]
    rw [hstep]
    exact ⟨rfl, rfl, token, hv _, Or.inr (Or.inr (Or.inr (Or.inr rfl)))⟩
  · have hstep : stepThread t
        { users := mapSet r0.users sid u, index := mapSet r0.index email sid } =
        ({ t with pc := .refind token "user already exists" },
          { users := mapSet r0.users sid u, index := mapSet r0.index email sid }, []) := by
      simp [stepThread, h, UserRepository.Create, NewUser, hv2, mapGet_mapSet]
    rw [hstep]
    exact ⟨rfl, rfl, token, hv _, Or.inr (Or.inr (Or.inr (Or.inl ⟨_, rfl⟩)))⟩
  · have hstep : stepThread t
        { users := mapSet r0.users sid u, index := mapSet r0.index email sid } =
        ({ t with pc := .done (.ok (token, some u)) },
          { users := mapSet r0.users sid u, index := mapSet r0.index email sid }, []) := by
      simp [stepThread, h, UserRepository.FindByID, hv2, mapGet_mapSet]
    rw [hstep]
    exact ⟨rfl, rfl, token, hv _, Or.inr (Or.inr (Or.inr (Or.inr rfl)))⟩
  · have hstep : stepThread t
        { users := mapSet r0.users sid u, index := mapSet r0.index email sid } =
        ({ t with pc := .done (.ok (token, some u)) },
          { users := mapSet r0.users sid u, index := mapSet r0.index email sid }, []) := by
      simp [stepThread, h]
    rw [hstep]
    exact ⟨rfl, rfl, token, hv _, Or.inr (Or.inr (Or.inr (Or.inr rfl)))⟩

theorem RaceInv_init (r0 : UserRepository) (sid email : String) (calls : List ResolveCall)
    (htok : ∀ c ∈ calls, ∃ token, c.authService c.tokenValue = .ok token ∧
      token.UserID = sid ∧ token.Email = email) :
    RaceInv r0 sid email (System.init r0 calls) := by
  refine Or.inl ⟨rfl, rfl, ?_⟩
  intro t ht
  simp only [System.init, List.mem_map] at ht
  obtain ⟨c, hc, rfl⟩ := ht
  obtain ⟨token, h1, h2, h3⟩ := htok c hc
  exact ⟨token, ⟨h1, h2, h3⟩, Or.inl rfl⟩

theorem RaceInv_step (r0 : UserRepository) (sid email : String) (s : System) (i : Nat)
    (hid : mapGet r0.users sid = none) (hem : mapGet r0.index email = none)
    (h : RaceInv r0 sid email s) : RaceInv r0 sid email (s.step i) := by
  unfold System.step
  cases hi : s.threads[i]? with
  | none => exact h
  | some t =>
    have hmem : t ∈ s.threads := List.getElem?_mem hi
    rcases h with ⟨hcr, hrepo, hall⟩ | ⟨u, hu1, hu2, hcr, hrepo, hall⟩
    · rw [hrepo]
      rcases stepThread_early r0 sid email t hid hem (hall t hmem) with
        ⟨h1, h2, h3⟩ | ⟨u, hu1, hu2, h1, h2, h3⟩
      · refine Or.inl ⟨by simp [hcr, h1], h2, ?_⟩
        exact forall_mem_set _ _ _ _ hall h3
      · refine Or.inr ⟨u, hu1, hu2, by simp [hcr, h1], h2, ?_⟩
        exact forall_mem_set _ _ _ _ (fun x hx => (hall x hx).late u) h3
    · rw [hrepo]
      obtain ⟨h1, h2, h3⟩ := stepThread_late r0 sid email u t (hall t hmem)
      refine Or.inr ⟨u, hu1, hu2, by simp [hcr, h1], h2, ?_⟩
      exact forall_mem_set _ _ _ _ hall h3

theorem RaceInv_run (r0 : UserRepository) (sid email : String) (sched : List Nat)
    (s : System) (hid : mapGet r0.users sid = none) (hem : mapGet r0.index email = none)
    (h : RaceInv r0 sid email s) : RaceInv r0 sid email (s.run sched) := by
  induction sched generalizing s with
  | nil => exact h
  | cons i sched ih => exact ih _ (RaceInv_step r0 sid email s i hid hem h)

theorem step_calls (s : System) (i : Nat) :
    (s.step i).threads.map (fun t => t.call) = s.threads.map (fun t => t.call) := by
  unfold System.step
  cases hi : s.threads[i]? with
  | none => rfl
  | some t =>
    apply List.ext_getElem?
    intro n
    simp only [List.getElem?_map, List.getElem?_set]
    by_cases hn : i = n
    · subst hn
      have hlt : i < s.threads.length := (List.getElem?_eq_some.mp hi).1
      simp [hlt, hi, stepThread_call]
    · simp [hn]

theorem run_calls (s : System) (sched : List Nat) :
    (s.run sched).threads.map (fun t => t.call) = s.threads.map (fun t => t.call) := by
  induction sched generalizing s with
  | nil => rfl
  | cons i sched ih => exact (ih (s.step i)).trans (step_calls s i)

theorem rankAt_step (s : System) (j i : Nat) :
    (s.step j).rankAt i ≤ s.rankAt i - (if j = i then 1 else 0) := by
  unfold System.step
  cases hj : s.threads[j]? with
  | none =>
    by_cases hji : j = i
    · subst hji
      simp [System.rankAt, hj]
    · simp [hji]
  | some t =>
    by_cases hji : j = i
    · subst hji
      have hlt : j < s.threads.length := (List.getElem?_eq_some.mp hj).1
      simp only [System.rankAt, List.getElem?_set_self hlt, hj, if_true]
      exact stepThread_rank t s.repo
    · simp [System.rankAt, List.getElem?_set_ne hji, hji]

theorem rankAt_run (s : System) (sched : List Nat) (i : Nat) :
    (s.run sched).rankAt i ≤ s.rankAt i - sched.count i := by
  induction sched generalizing s with
  | nil => simp [System.run]
  | cons j sched ih =>
    have h1 := ih (s.step j)
    have h2 := rankAt_step s j i
    have h3 : (s.run (j :: sched)) = (s.step j).run sched := rfl
    rw [h3, List.count_cons]
    by_cases hji : j = i
    · subst hji
      simp only [if_true, beq_self_eq_true] at h2 ⊢
      omega
    · have hne : (j == i) = false := by simpa using hji
      simp only [hji, if_false, hne, Bool.false_eq_true] at h2 ⊢
      omega

theorem allDone_of_rankAt (s : System) (h : ∀ i, s.rankAt i = 0) : s.allDone = true := by
  simp only [System.allDone, List.all_eq_true]
  intro t ht
  obtain ⟨n, hn⟩ := List.getElem?_of_mem ht
  have := h n
  simp only [System.rankAt, hn] at this
  cases hpc : t.pc <;> simp [hpc, Pc.rank, Pc.isDone] at this ⊢

theorem rankAt_init_le (r : UserRepository) (calls : List ResolveCall) (i : Nat) :
    (System.init r calls).rankAt i ≤ 4 := by
  simp only [System.rankAt, System.init, List.getElem?_map]
  cases calls[i]? <;> simp [Pc.rank]

theorem rankAt_init_of_le (r : UserRepository) (calls : List ResolveCall) (i : Nat)
    (h : calls.length ≤ i) : (System.init r calls).rankAt i = 0 := by
  simp [System.rankAt, System.init, List.getElem?_eq_none h]

/-- An invocation running alone, with nothing interleaved, takes at most four steps and
ends with the result and the repository of `VerifyTokenAndGetUser`. -/
theorem run_alone (c : ResolveCall) (r : UserRepository) :
    ((System.init r [c]).run [0, 0, 0, 0]).pcs =
      [.done (VerifyTokenAndGetUser c.authService c.now r c.tokenValue).result] ∧
    ((System.init r [c]).run [0, 0, 0, 0]).repo =
      (VerifyTokenAndGetUser c.authService c.now r c.tokenValue).repo := by
  cases hv : c.authService c.tokenValue with
  | error e =>
    simp [System.init, System.run, System.step, System.pcs, stepThread,
      VerifyTokenAndGetUser, hv]
  | ok token =>
    cases hu : mapGet r.users token.UserID with
    | some x =>
      simp [System.init, System.run, System.step, System.pcs, stepThread,
        VerifyTokenAndGetUser, hv, UserRepository.FindByID, hu]
    | none =>
      cases he : mapGet r.index token.Email with
      | some owner =>
        simp [System.init, System.run, System.step, System.pcs, stepThread,
          VerifyTokenAndGetUser, hv, UserRepository.FindByID, hu, UserRepository.Create,
          NewUser, he]
      | none =>
        simp [System.init, System.run, System.step, System.pcs, stepThread,
          VerifyTokenAndGetUser, hv, UserRepository.FindByID, hu, UserRepository.Create,
          NewUser, he]

/-- C11, counterexample: a single invocation (N = 1) for the subject "u2", which is not a
key of `repoA`, with the claimed email "a@x.com" that `repoA` already indexes: run to
completion, it returns the error "email already taken", no `Create` succeeds and the
directory has no record for "u2". -/
theorem concurrent_resolve_taken_email :
    mapGet repoA.users "u2" = none ∧
    ((System.init repoA [{ authService := verifierU2, now := 5, tokenValue := "tok" }]).run
      [0, 0, 0, 0]).pcs = [.done (.error "email already taken")] ∧
    ((System.init repoA [{ authService := verifierU2, now := 5, tokenValue := "tok" }]).run
      [0, 0, 0, 0]).created = [] ∧
    ((System.init repoA [{ authService := verifierU2, now := 5, tokenValue := "tok" }]).run
      [0, 0, 0, 0]).repo.FindByID "u2" = .error "user not found" := by
  decide

/-- C11, amended: take N >= 1 invocations of `VerifyTokenAndGetUser` whose tokens all verify
to the subject `sid` and the email `email`, started on a repository in which `sid` is not a
key of `users` and `email` is not a key of `index`, and any interleaving `sched` of their
atomic steps. If every invocation is scheduled at least four times, all of them have
returned. Whenever all of them have returned, exactly one `Create` has succeeded, for a
user `u` with that ID and email; the repository is the initial one with `u` added under
`sid` (one more entry in `users`); and every invocation has returned its token with that
same record `u`. -/
theorem concurrent_resolve_single_winner (r : UserRepository) (calls : List ResolveCall)
    (sid email : String) (sched : List Nat)
    (hN : 1 ≤ calls.length)
    (htok : ∀ c ∈ calls, ∃ token, c.authService c.tokenValue = .ok token ∧
      token.UserID = sid ∧ token.Email = email)
    (hid : mapGet r.users sid = none)
    (hem : mapGet r.index email = none) :
    ((∀ i, i < calls.length → 4 ≤ sched.count i) →
      ((System.init r calls).run sched).allDone = true) ∧
    (((System.init r calls).run sched).allDone = true →
      ∃ u : User, u.ID = sid ∧ u.Email = email ∧
        ((System.init r calls).run sched).created = [u] ∧
        ((System.init r calls).run sched).repo =
          { users := mapSet r.users sid u, index := mapSet r.index email sid } ∧
        ((System.init r calls).run sched).repo.FindByID sid = .ok (some u) ∧
        mapLen ((System.init r calls).run sched).repo.users = mapLen r.users + 1 ∧
        ((System.init r calls).run sched).threads.map (fun t => t.call) = calls ∧
        ∀ t ∈ ((System.init r calls).run sched).threads,
          ∃ token, t.call.authService t.call.tokenValue = .ok token ∧
            t.pc = .done (.ok (token, some u))) := by
  constructor
  · intro hfair
    apply allDone_of_rankAt
    intro i
    have h1 := rankAt_run (System.init r calls) sched i
    by_cases hi : i < calls.length
    · have h2 := rankAt_init_le r calls i
      have h3 := hfair i hi
      omega
    · have h2 := rankAt_init_of_le r calls i (by omega)
      omega
  · intro hdone
    have hcalls : ((System.init r calls).run sched).threads.map (fun t => t.call) = calls := by
      rw [run_calls]
      simp only [System.init, List.map_map]
      exact List.map_id calls
    have hinv := RaceInv_run r sid email sched _ hid hem (RaceInv_init r sid email calls htok)
    simp only [System.allDone, List.all_eq_true] at hdone
    rcases hinv with ⟨_, _, hall⟩ | ⟨u, hu1, hu2, hcr, hrepo, hall⟩
    · exfalso
      have hlen : ((System.init r calls).run sched).threads.length = calls.length := by
        have := congrArg List.length hcalls
        simpa using this
      cases hth : ((System.init r calls).run sched).threads with
      | nil => rw [hth] at hlen; simp at hlen; omega
      | cons t ts =>
        have hmem : t ∈ ((System.init r calls).run sched).threads := by simp [hth]
        have hd := hdone t hmem
        obtain ⟨token, _, hpc⟩ := hall t hmem
        rcases hpc with h | h | h <;> simp [h, Pc.isDone] at hd
    · refine ⟨u, hu1, hu2, hcr, hrepo, ?_, ?_, hcalls, ?_⟩
      · rw [hrepo]
        simp [UserRepository.FindByID, mapGet_mapSet]
      · rw [hrepo]
        exact mapLen_mapSet_of_absent _ _ _ hid
      · intro t ht
        have hd := hdone t ht
        obtain ⟨token, hv, hpc⟩ := hall t ht
        refine ⟨token, hv.1, ?_⟩
        rcases hpc with h | h | h | ⟨err, h⟩ | h
        · simp [h, Pc.isDone] at hd
        · simp [h, Pc.isDone] at hd
        · simp [h, Pc.isDone] at hd
        · simp [h, Pc.isDone] at hd
        · exact h

/-- Witness for C11 (amended): the two invocations `raceCalls` under the interleaving
`raceSched`, where both miss in `FindByID` and the second wins the `Create`. -/
theorem concurrent_resolve_single_winner_witness :
    ((System.init NewUserRepository raceCalls).run raceSched).allDone = true ∧
    ((System.init NewUserRepository raceCalls).run raceSched).pcs =
      [.done (.ok ({ Value := "t0", UserID := "u1", Email := "a@x.com" },
          some (NewUser 2 "u1" "a@x.com"))),
       .done (.ok ({ Value := "t1", UserID := "u1", Email := "a@x.com" },
          some (NewUser 2 "u1" "a@x.com")))] ∧
    ∃ u : User, u.ID = "u1" ∧ u.Email = "a@x.com" ∧
      ((System.init NewUserRepository raceCalls).run raceSched).created = [u] ∧
      mapLen ((System.init NewUserRepository raceCalls).run raceSched).repo.users = 1 := by
  have h := concurrent_resolve_single_winner NewUserRepository raceCalls "u1" "a@x.com"
    raceSched (by decide)
    (by
      intro c hc
      simp only [raceCalls, List.mem_cons, List.mem_singleton, List.not_mem_nil, or_false] at hc
      rcases hc with rfl | rfl
      · exact ⟨_, rfl, rfl, rfl⟩
      · exact ⟨_, rfl, rfl, rfl⟩)
    (by decide) (by decide)
  obtain ⟨u, h1, h2, h3, _, _, h4, _, _⟩ := h.2 (by decide)
  exact ⟨by decide, by decide, u, h1, h2, h3, h4⟩

end ToolRentalClub
